import Mathlib

/-!
Verification of the skimap route pipeline (route acquisition, polyline
resampling, corridor aggregation, travel-time extraction).

The JavaScript sources are embedded shallowly over exact rationals:

* `resampleLineWithProgress` embeds the resampler of
  `pipeline/scripts/build_corridors.js` (lines 52-91); the `while` loop is
  written with an explicit fuel argument whose adequacy is proved in
  `stepLoop_fuel_congr` (at the chosen fuel the exhaustion branch coincides
  with the loop-guard-false branch, so the function agrees with the
  unbounded loop).
* `resampleLine` embeds the legacy resampler of `scripts/build_corridors.js`
  (lines 41-60).
* The haversine arc length (`haversineMeters` in the source) is a
  transcendental function of the coordinates; the embedding abstracts it as
  a parameter `dlen : Coord → Coord → ℚ` (the source guarantees it is
  nonnegative, which the theorems take as a hypothesis).  Likewise the
  Web-Mercator cell quantization `cellId` and back-projection `cellCenter`
  are abstracted as parameters where needed; no claim depends on their
  numeric values.
* JavaScript strings are modelled as lists of UTF-16 code units
  (`List ℕ`), with the lexicographic code-unit order of the `<` operator.
-/

/-- Coordinate pair `[lon, lat]`, as stored in GeoJSON positions. -/
abbrev Coord : Type := ℚ × ℚ

/-- Linear interpolation between coordinates, `lerpCoord` in both
`build_corridors.js` files: `[a[0] + (b[0]-a[0])*t, a[1] + (b[1]-a[1])*t]`. -/
def lerpCoord (a b : Coord) (t : ℚ) : Coord :=
  (a.1 + (b.1 - a.1) * t, a.2 + (b.2 - a.2) * t)

/-- Element of the resampled sequence produced by `resampleLineWithProgress`:
an object `{ coord, progress }`. -/
structure ResampledPoint where
  coord : Coord
  progress : ℚ
deriving DecidableEq

/-- Fuel for the inner `while (dist + stepM <= segLen)` loop: the number of
remaining iterations is bounded by `⌈(segLen - dist) / stepM⌉`. -/
def loopFuel (stepM segLen dist : ℚ) : ℕ :=
  (⌈(segLen - dist) / stepM⌉).toNat

/-- Inner `while` loop of `resampleLineWithProgress`
(`pipeline/scripts/build_corridors.js` lines 73-80), with the post-loop
updates `cumDist += (segLen - dist); carry = segLen - dist` (lines 81-82)
applied on exit.  Returns `(out, cumDist, carry)`. -/
def stepLoop (stepM segLen totalLen : ℚ) (a b : Coord) :
    ℕ → ℚ → ℚ → List ResampledPoint → List ResampledPoint × ℚ × ℚ
  | 0, dist, cumDist, out => (out, cumDist + (segLen - dist), segLen - dist)
  | n + 1, dist, cumDist, out =>
    if dist + stepM ≤ segLen then
      stepLoop stepM segLen totalLen a b n (dist + stepM) (cumDist + stepM)
        (out ++ [⟨lerpCoord a b ((dist + stepM) / segLen),
                 (cumDist + stepM) / totalLen⟩])
    else (out, cumDist + (segLen - dist), segLen - dist)

/-- Outer `for` loop of `resampleLineWithProgress` over consecutive vertex
pairs (lines 67-83).  State is `(cumDist, carry, out)`; a zero-length
segment is skipped (`if (segLen === 0) continue`). -/
def segsLoop (dlen : Coord → Coord → ℚ) (stepM totalLen : ℚ) :
    List (Coord × Coord) → ℚ → ℚ → List ResampledPoint →
    List ResampledPoint × ℚ × ℚ
  | [], cumDist, carry, out => (out, cumDist, carry)
  | (a, b) :: rest, cumDist, carry, out =>
    let segLen := dlen a b
    if segLen = 0 then segsLoop dlen stepM totalLen rest cumDist carry out
    else
      let r := stepLoop stepM segLen totalLen a b
        (loopFuel stepM segLen carry) carry cumDist out
      segsLoop dlen stepM totalLen rest r.2.1 r.2.2 r.1

/-- Consecutive vertex pairs `(coords[i], coords[i+1])` of a polyline. -/
def pairsOf {α : Type} (l : List α) : List (α × α) := l.zip l.tail

/-- Accumulated polyline length, the `totalLen` loop of
`resampleLineWithProgress` (lines 56-60). -/
def sumLen (dlen : Coord → Coord → ℚ) : List (Coord × Coord) → ℚ
  | [] => 0
  | (a, b) :: rest => dlen a b + sumLen dlen rest

/-- Embedding of `resampleLineWithProgress(coords, stepM)`
(`pipeline/scripts/build_corridors.js` lines 52-91), parametrized by the
arc-length function `dlen` (haversine in the source). -/
def resampleLineWithProgress (dlen : Coord → Coord → ℚ) (stepM : ℚ) :
    List Coord → List ResampledPoint
  | c0 :: c1 :: rest =>
    let cs := c0 :: c1 :: rest
    let totalLen := sumLen dlen (pairsOf cs)
    if totalLen = 0 then []
    else
      let r := segsLoop dlen stepM totalLen (pairsOf cs) 0 0 [⟨c0, 0⟩]
      let lastV := cs.getLast (List.cons_ne_nil _ _)
      match r.1.getLast? with
      | none => r.1 ++ [⟨lastV, 1⟩]
      | some lo => if lo.coord = lastV then r.1 else r.1 ++ [⟨lastV, 1⟩]
  | _ => []

/-- Inner `while` loop of the legacy `resampleLine`
(`scripts/build_corridors.js` lines 50-53), with the post-loop update
`carry = segLen - dist` (line 54) applied on exit. -/
def stepLoopC (stepM segLen : ℚ) (a b : Coord) :
    ℕ → ℚ → List Coord → List Coord × ℚ
  | 0, dist, out => (out, segLen - dist)
  | n + 1, dist, out =>
    if dist + stepM ≤ segLen then
      stepLoopC stepM segLen a b n (dist + stepM)
        (out ++ [lerpCoord a b ((dist + stepM) / segLen)])
    else (out, segLen - dist)

/-- Outer loop of the legacy `resampleLine` (lines 45-55). -/
def segsLoopC (dlen : Coord → Coord → ℚ) (stepM : ℚ) :
    List (Coord × Coord) → ℚ → List Coord → List Coord × ℚ
  | [], carry, out => (out, carry)
  | (a, b) :: rest, carry, out =>
    let segLen := dlen a b
    if segLen = 0 then segsLoopC dlen stepM rest carry out
    else
      let r := stepLoopC stepM segLen a b (loopFuel stepM segLen carry) carry out
      segsLoopC dlen stepM rest r.2 r.1

/-- Embedding of the legacy `resampleLine(coords, stepM)`
(`scripts/build_corridors.js` lines 41-60).  Degenerate input returns
`coords` itself (`return coords || []`). -/
def resampleLine (dlen : Coord → Coord → ℚ) (stepM : ℚ) :
    List Coord → List Coord
  | c0 :: c1 :: rest =>
    let cs := c0 :: c1 :: rest
    let r := segsLoopC dlen stepM (pairsOf cs) 0 [c0]
    let lastV := cs.getLast (List.cons_ne_nil _ _)
    match r.1.getLast? with
    | none => r.1 ++ [lastV]
    | some lo => if lo = lastV then r.1 else r.1 ++ [lastV]
  | cs => cs

/-- Fuel adequacy for the embedded `while` loop: any fuel at least
`loopFuel` produces the same result, so `stepLoop` at fuel `loopFuel`
agrees with the unbounded source loop. -/
theorem stepLoop_fuel_congr (stepM segLen totalLen : ℚ) (a b : Coord)
    (hs : 0 < stepM) :
    ∀ n m dist cumDist out, loopFuel stepM segLen dist ≤ n →
      loopFuel stepM segLen dist ≤ m →
      stepLoop stepM segLen totalLen a b n dist cumDist out =
        stepLoop stepM segLen totalLen a b m dist cumDist out := by
  intro n
  induction n with
  | zero =>
    intro m dist cumDist out hn hm
    have hfuel : loopFuel stepM segLen dist = 0 := Nat.le_zero.mp hn
    have hng : ¬ dist + stepM ≤ segLen := by
      intro hg
      have h1 : (1 : ℚ) ≤ (segLen - dist) / stepM := by
        rw [le_div_iff₀ hs]
        linarith
      have h2 : (1 : ℤ) ≤ ⌈(segLen - dist) / stepM⌉ := by
        exact_mod_cast Int.le_ceil_iff.mpr (by push_cast; linarith)
      have : (1 : ℕ) ≤ (⌈(segLen - dist) / stepM⌉).toNat := by
        omega
      simp [loopFuel] at hfuel
      omega
    cases m with
    | zero => rfl
    | succ m => simp [stepLoop, if_neg hng]
  | succ n ih =>
    intro m dist cumDist out hn hm
    by_cases hg : dist + stepM ≤ segLen
    · have h1 : (1 : ℚ) ≤ (segLen - dist) / stepM := by
        rw [le_div_iff₀ hs]
        linarith
      have h2 : (1 : ℤ) ≤ ⌈(segLen - dist) / stepM⌉ :=
        Int.le_ceil_iff.mpr (by push_cast; linarith)
      have hfuel1 : 1 ≤ loopFuel stepM segLen dist := by
        simp only [loopFuel]
        omega
      cases m with
      | zero => omega
      | succ m =>
        simp only [stepLoop, if_pos hg]
        have hstep : loopFuel stepM segLen (dist + stepM) =
            loopFuel stepM segLen dist - 1 := by
          simp only [loopFuel]
          have : (segLen - (dist + stepM)) / stepM =
              (segLen - dist) / stepM - 1 := by
            field_simp
            ring
          rw [this]
          rw [show ((1 : ℚ) = ((1 : ℤ) : ℚ)) by norm_num, Int.ceil_sub_int]
          omega
        exact ih m (dist + stepM) (cumDist + stepM) _ (by omega) (by omega)
    · cases m with
      | zero =>
        have h0 : loopFuel stepM segLen dist = 0 := by
          exact Nat.le_zero.mp hm
        simp [stepLoop, if_neg hg]
      | succ m => simp [stepLoop, if_neg hg]

/-! ### JavaScript strings and the grid-cell edge key -/

/-- Decimal digits of a natural number as UTF-16 code units, with fuel. -/
def natDigitsAux : ℕ → ℕ → List ℕ
  | 0, _ => []
  | fuel + 1, n => if n < 10 then [48 + n] else natDigitsAux fuel (n / 10) ++ [48 + n % 10]

/-- Decimal rendering of a natural number (code units). -/
def natDigits (n : ℕ) : List ℕ := natDigitsAux (n + 1) n

/-- JavaScript template-literal rendering of an integer (code 45 is the
minus sign). -/
def intStr (z : ℤ) : List ℕ :=
  if z < 0 then 45 :: natDigits z.natAbs else natDigits z.natAbs

/-- Grid cell `{cx, cy}` produced by `cellId`. -/
abbrev GridCell : Type := ℤ × ℤ

/-- Cell-id string `` `${a.cx},${a.cy}` `` (code 44 is the comma). -/
def cellKey (c : GridCell) : List ℕ := intStr c.1 ++ [44] ++ intStr c.2

/-- JavaScript `<` on strings: lexicographic order on UTF-16 code units. -/
def strLt : List ℕ → List ℕ → Bool
  | [], [] => false
  | [], _ :: _ => true
  | _ :: _, [] => false
  | a :: as, b :: bs => if a < b then true else if b < a then false else strLt as bs

/-- Embedding of `undirectedKey(a, b)` (both `build_corridors.js` files):
the two cell-id strings joined by a bar (code 124), lexicographically
smaller first. -/
def undirectedKey (a b : GridCell) : List ℕ :=
  let k1 := cellKey a
  let k2 := cellKey b
  if strLt k1 k2 then k1 ++ 124 :: k2 else k2 ++ 124 :: k1

/-- Splitting a key at the first bar, used by the aggregator's
`key.split("|")` (keys contain exactly one bar). -/
def splitBarAux : List ℕ → List ℕ → List ℕ × List ℕ
  | acc, [] => (acc.reverse, [])
  | acc, c :: rest => if c = 124 then (acc.reverse, rest) else splitBarAux (c :: acc) rest

/-- Model of `key.split("|")` for a two-part undirected key. -/
def splitBar (s : List ℕ) : List ℕ × List ℕ := splitBarAux [] s

/-- Splitting a cell-id string at the first comma (`aStr.split(",")`). -/
def splitCommaAux : List ℕ → List ℕ → List ℕ × List ℕ
  | acc, [] => (acc.reverse, [])
  | acc, c :: rest => if c = 44 then (acc.reverse, rest) else splitCommaAux (c :: acc) rest

/-- Model of `aStr.split(",")` for a two-part cell-id string. -/
def splitComma (s : List ℕ) : List ℕ × List ℕ := splitCommaAux [] s

/-- Decimal digit-string to natural number. -/
def parseNatCode (ds : List ℕ) : ℕ := ds.foldl (fun acc d => acc * 10 + (d - 48)) 0

/-- Model of JavaScript `Number(str)` on a decimal integer string. -/
def parseIntCode : List ℕ → ℤ
  | 45 :: ds => -(parseNatCode ds : ℤ)
  | ds => (parseNatCode ds : ℤ)

/-- Reparsing a cell-id string into `{cx, cy}` (`aStr.split(",").map(Number)`). -/
def parseCell (s : List ℕ) : GridCell :=
  ((parseIntCode (splitComma s).1, parseIntCode (splitComma s).2) : ℤ × ℤ)

/-! ### Route-store feature properties -/

/-- Properties object of a Route Store feature; absent fields are `none`
(JavaScript `typeof x === "number"` tests model as `Option.isSome`). -/
structure RouteProps where
  home_id : Option (List ℕ) := none
  resort_id : Option (List ℕ) := none
  name : Option (List ℕ) := none
  duration_min : Option ℚ := none
  duration_sec : Option ℚ := none
  duration : Option ℚ := none
  distance_km : Option ℚ := none
  distance_m : Option ℚ := none
deriving DecidableEq

/-- Route Store feature: `lineCoords` is `some` exactly when the feature
has a geometry of type `LineString`. -/
structure RouteFeature where
  lineCoords : Option (List Coord)
  props : Option RouteProps
deriving DecidableEq

/-- Embedding of `getDurationMin(props)`
(`pipeline/scripts/build_corridors.js` lines 43-49). -/
def getDurationMin (props : Option RouteProps) : Option ℚ :=
  match props with
  | none => none
  | some p =>
    match p.duration_min with
    | some v => some v
    | none =>
      match p.duration_sec with
      | some v => some (v / 60)
      | none =>
        match p.duration with
        | some v => some (v / 60)
        | none => none

/-! ### Corridor aggregation -/

/-- Per-edge accumulator `{ count, minDurationMin, durations }`
(line 150 of `pipeline/scripts/build_corridors.js`); `minDurationMin`
is `none` while still `Infinity`. -/
structure SegRec where
  count : ℕ
  minDurationMin : Option ℚ
  durations : List ℚ
deriving DecidableEq

/-- Fresh accumulator `{ count: 0, minDurationMin: Infinity, durations: [] }`. -/
def segInit : SegRec := ⟨0, none, []⟩

/-- Contribution of one sampled pair to an accumulator (lines 154-158):
`count` always increments; a non-null finite `durationAtPoint` is appended
and folded into the running minimum (`Math.min` with `Infinity` start). -/
def updSeg (durationAtPoint : Option ℚ) (s : SegRec) : SegRec :=
  match durationAtPoint with
  | some d =>
    { count := s.count + 1
      minDurationMin := some (match s.minDurationMin with
        | none => d
        | some v => min v d)
      durations := s.durations ++ [d] }
  | none => { s with count := s.count + 1 }

/-- The `segments` map, a `Map` keyed by undirected-key strings in
insertion order. -/
abbrev SegMap : Type := List (List ℕ × SegRec)

/-- Map update: an existing entry is updated in place, a new key is
appended (JavaScript `Map` get-or-create followed by mutation). -/
def mapUpdate : SegMap → List ℕ → Option ℚ → SegMap
  | [], key, d => [(key, updSeg d segInit)]
  | (k, s) :: rest, key, d =>
    if k = key then (k, updSeg d s) :: rest
    else (k, s) :: mapUpdate rest key d

/-- Lookup in the `segments` map. -/
def mapFind : SegMap → List ℕ → Option SegRec
  | [], _ => none
  | (k, s) :: rest, key => if k = key then some s else mapFind rest key

/-- Fold of one consecutive sampled pair into the `segments` map
(lines 135-159): identical cells are skipped; otherwise
`durationAtPoint = totalDurationMin ? totalDurationMin * avgProgress : null`
(`0` is falsy) is contributed under the undirected key. -/
def contribPair (cellOf : Coord → GridCell) (totalDurationMin : Option ℚ)
    (m : SegMap) (p : ResampledPoint × ResampledPoint) : SegMap :=
  let ca := cellOf p.1.coord
  let cb := cellOf p.2.coord
  if ca = cb then m
  else
    let key := undirectedKey ca cb
    let avgProgress := (p.1.progress + p.2.progress) / 2
    let durationAtPoint : Option ℚ :=
      match totalDurationMin with
      | some v => if v = 0 then none else some (v * avgProgress)
      | none => none
    mapUpdate m key durationAtPoint

/-- Fold of one Route Store feature into the `segments` map (lines 129-160);
non-`LineString` features are skipped. -/
def foldFeature (cellOf : Coord → GridCell) (dlen : Coord → Coord → ℚ)
    (stepM : ℚ) (m : SegMap) (f : RouteFeature) : SegMap :=
  match f.lineCoords with
  | none => m
  | some coords =>
    let totalDurationMin := getDurationMin f.props
    let sampled := resampleLineWithProgress dlen stepM coords
    (pairsOf sampled).foldl (contribPair cellOf totalDurationMin) m

/-- The `segments` map after folding every feature of the Route Store. -/
def buildSegments (cellOf : Coord → GridCell) (dlen : Coord → Coord → ℚ)
    (stepM : ℚ) (features : List RouteFeature) : SegMap :=
  features.foldl (foldFeature cellOf dlen stepM) []

/-- Output corridor feature (lines 185-197): a two-point `LineString`
between cell centroids with properties
`{ count, grid_m, duration_min, duration_avg_min }`. -/
structure CorridorFeature where
  coordA : Coord
  coordB : Coord
  count : ℕ
  grid_m : ℚ
  duration_min : Option ℤ
  duration_avg_min : Option ℤ
deriving DecidableEq

/-- JavaScript `Math.round`: round half toward positive infinity. -/
def roundJS (q : ℚ) : ℤ := ⌊q + 1 / 2⌋

/-- Finalization of one map entry (lines 166-198): entries with
`count < minCount` are dropped; `duration_min` is the rounded running
minimum (`null` when still `Infinity`), `duration_avg_min` the rounded mean
of the collected samples (`null` when there are none). -/
def finalizeSeg (cellCenter : GridCell → Coord) (gridM minCount : ℚ)
    (e : List ℕ × SegRec) : Option CorridorFeature :=
  if (e.2.count : ℚ) < minCount then none
  else
    let ab := splitBar e.1
    let avgDuration : Option ℚ :=
      if 0 < e.2.durations.length then
        some ((e.2.durations.foldl (· + ·) 0) / (e.2.durations.length : ℚ))
      else none
    some
      { coordA := cellCenter (parseCell ab.1)
        coordB := cellCenter (parseCell ab.2)
        count := e.2.count
        grid_m := gridM
        duration_min := e.2.minDurationMin.map roundJS
        duration_avg_min := avgDuration.map roundJS }

/-- Sort key of the output comparator (lines 201-205):
`a.properties.duration_min ?? Infinity`. -/
def durKey (o : Option ℤ) : WithTop ℤ :=
  match o with
  | none => ⊤
  | some v => (v : WithTop ℤ)

/-- Boolean comparator placing larger (further) sort keys first, the
order produced by `feats.sort((a, b) => db - da)` with `null` mapped to
`Infinity` (a `NaN` comparator result is treated as `0` per ECMA-262). -/
def corridorLe (f g : CorridorFeature) : Bool :=
  decide (durKey g.duration_min ≤ durKey f.duration_min)

/-- Embedding of the corridor aggregation in `main` of
`pipeline/scripts/build_corridors.js`: fold all features, finalize and
filter by `minCount`, then sort furthest-first.  The Web-Mercator cell
quantization `cellId` and centroid back-projection `cellCenter` are
abstract parameters. -/
def buildCorridors (cellOf : Coord → GridCell) (cellCenter : GridCell → Coord)
    (dlen : Coord → Coord → ℚ) (stepM gridM minCount : ℚ)
    (features : List RouteFeature) : List CorridorFeature :=
  let segs := buildSegments cellOf dlen stepM features
  let feats := segs.filterMap (finalizeSeg cellCenter gridM minCount)
  feats.mergeSort corridorLe

/-! ### Travel-time extraction -/

/-- Embedding of `round(n, d)` in
`pipeline/scripts/build_travel_times_from_routes.js` (lines 43-46):
`Math.round(n * 10^d) / 10^d`. -/
def roundTo (n : ℚ) (d : ℕ) : ℚ := (roundJS (n * (10 : ℚ) ^ d) : ℚ) / (10 : ℚ) ^ d

/-- Empty properties object (the `{}` fallback on line 86). -/
def emptyProps : RouteProps := {}

/-- The travel-time table, a JSON object in insertion order mapping a
resort name to `(hours, km)`. -/
abbrev TTMap : Type := List (List ℕ × (ℚ × ℚ))

/-- JavaScript object assignment `ttMap[name] = v`: overwrite in place or
append. -/
def objSet : TTMap → List ℕ → ℚ × ℚ → TTMap
  | [], k, v => [(k, v)]
  | (k0, v0) :: rest, k, v =>
    if k0 = k then (k0, v) :: rest else (k0, v0) :: objSet rest k v

/-- Embedding of the per-feature loop of the Travel-Time Extractor
(`build_travel_times_from_routes.js` lines 85-101): features without a
truthy name, or lacking both duration and distance fields, are skipped;
otherwise `{hours: round(hours, 2), km: round(km, 1)}` is stored. -/
def buildTravelTimes (feats : List RouteFeature) : TTMap :=
  feats.foldl
    (fun tt f =>
      let p := f.props.getD emptyProps
      match p.name with
      | none => tt
      | some name =>
        if name = [] then tt
        else
          let hours : Option ℚ :=
            match p.duration_sec with
            | some v => some (v / 3600)
            | none =>
              match p.duration_min with
              | some v => some (v / 60)
              | none => none
          let km : Option ℚ :=
            match p.distance_km with
            | some v => some v
            | none =>
              match p.distance_m with
              | some v => some (v / 1000)
              | none => none
          match hours, km with
          | some h, some k => objSet tt name (roundTo h 2, roundTo k 1)
          | _, _ => tt)
    []

/-! ### Route acquisition client (`scripts/precompute_routes.js`) -/

/-- Destination record from `resorts.json`: `{ id, slug, name, lat, lon }`
with `id` and `slug` possibly absent. -/
structure Resort where
  id : Option (List ℕ)
  slug : Option (List ℕ)
  name : List ℕ
  lat : ℚ
  lon : ℚ

/-- Candidate route in the routing-engine response. -/
structure OsrmRoute where
  geometry : Option (List Coord)
  duration : ℚ
  distance : ℚ

/-- Parsed routing-engine response body (`data.routes`). -/
structure OsrmJson where
  routes : List OsrmRoute

/-- Retry loop of `fetchRoute` (lines 165-175): one iteration per attempt
number; a failed attempt sleeps `350 * attempt` milliseconds.  Returns the
first successful body (or `none` after all attempts), the number of fetch
attempts made, and the list of backoff delays slept. -/
def fetchLoop (att : ℕ → Option OsrmJson) :
    List ℕ → ℕ → List ℚ → Option OsrmJson × ℕ × List ℚ
  | [], tries, sleeps => (none, tries, sleeps)
  | a :: rest, tries, sleeps =>
    match att a with
    | some j => (some j, tries + 1, sleeps)
    | none => fetchLoop att rest (tries + 1) (sleeps ++ [350 * (a : ℚ)])

/-- Embedding of `fetchRoute(r)` (lines 159-177): up to 4 attempts, with
the outcome of attempt `k` given by `att k`. -/
def fetchRoute (att : ℕ → Option OsrmJson) : Option OsrmJson × ℕ × List ℚ :=
  fetchLoop att [1, 2, 3, 4] 0 []

/-- JavaScript `a || b` for an optional string: `a` unless absent or empty. -/
def truthyOr (a : Option (List ℕ)) (fallback : List ℕ) : List ℕ :=
  match a with
  | none => fallback
  | some s => if s = [] then fallback else s

/-- Stable key `r.id || r.slug || r.name` (line 189). -/
def resortKey (r : Resort) : List ℕ := truthyOr r.id (truthyOr r.slug r.name)

/-- Properties stored for a successful route (lines 187-194):
`duration_sec` is raw, `duration_min` and `distance_km` are rounded to one
decimal. -/
def mkStoreProps (homeId resortId name : List ℕ) (dur dist : ℚ) : RouteProps :=
  { home_id := some homeId
    resort_id := some resortId
    name := some name
    duration_sec := some dur
    duration_min := some ((roundJS (dur / 60 * 10) : ℚ) / 10)
    distance_km := some ((roundJS (dist / 1000 * 10) : ℚ) / 10) }

/-- Processing of one Resort inside the `asyncPool` worker (lines 179-202):
a fetch failure, a response without a first route, or a first route without
geometry all produce `none` (the worker's `catch`); otherwise the stored
feature. -/
def processResort (homeId : List ℕ) (att : ℕ → Option OsrmJson)
    (r : Resort) : Option RouteFeature :=
  match (fetchRoute att).1 with
  | none => none
  | some data =>
    match data.routes.head? with
    | none => none
    | some route =>
      match route.geometry with
      | none => none
      | some geom =>
        some { lineCoords := some geom
               props := some (mkStoreProps homeId (resortKey r) r.name
                 route.duration route.distance) }

/-- Worker-pool phase of `main` (lines 179-205): each Resort contributes a
feature and `ok++` on success, or `fail++` on failure.  The pool's
completion order does not affect membership or the counters, so the fold is
sequential.  Returns `(features, ok, fail)`. -/
def runAcquisition (homeId : List ℕ) (att : Resort → ℕ → Option OsrmJson)
    (resorts : List Resort) : List RouteFeature × ℕ × ℕ :=
  resorts.foldl
    (fun acc r =>
      match processResort homeId (att r) r with
      | some f => (acc.1 ++ [f], acc.2.1 + 1, acc.2.2)
      | none => (acc.1, acc.2.1, acc.2.2 + 1))
    ([], 0, 0)

/-- Pre-flight validation failure (`validateLatLon`, lines 51-55). -/
inductive PreflightError where
  | badLatLon
deriving DecidableEq

/-- Home origin `{ lat, lon }`. -/
structure Home where
  lat : ℚ
  lon : ℚ

/-- Embedding of `validateLatLon(lat, lon)` (lines 51-55); rationals are
always finite. -/
def validLatLon (lat lon : ℚ) : Prop :=
  -90 ≤ lat ∧ lat ≤ 90 ∧ -180 ≤ lon ∧ lon ≤ 180

instance (lat lon : ℚ) : Decidable (validLatLon lat lon) := by
  unfold validLatLon
  infer_instance

/-- Acquisition entry point: the home coordinate is validated before any
network activity (`loadHomes`); on success the run always completes
normally (exit code 0) with the written FeatureCollection and the
`ok`/`fail` counters. -/
def mainAcquisition (home : Home) (homeId : List ℕ)
    (att : Resort → ℕ → Option OsrmJson) (resorts : List Resort) :
    Except PreflightError (List RouteFeature × ℕ × ℕ) :=
  if validLatLon home.lat home.lon then
    Except.ok (runAcquisition homeId att resorts)
  else Except.error PreflightError.badLatLon

/-! ### Helper lemmas on the string order -/

/-- Lexicographic string comparison is asymmetric. -/
theorem strLt_asymm : ∀ a b : List ℕ, strLt a b = true → strLt b a = false := by
  intro a
  induction a with
  | nil => intro b _; cases b <;> simp [strLt]
  | cons x xs ih =>
    intro b h
    cases b with
    | nil => simp [strLt] at h
    | cons y ys =>
      simp only [strLt] at h ⊢
      by_cases hxy : x < y
      · have hyx : ¬ y < x := by omega
        simp [hxy, hyx]
      · by_cases hyx : y < x
        · simp [hxy, hyx] at h
        · have heq : x = y := by omega
          simp [hxy, hyx] at h ⊢
          exact ih ys h

/-- Two strings neither of which precedes the other are equal. -/
theorem strLt_total_eq : ∀ a b : List ℕ,
    strLt a b = false → strLt b a = false → a = b := by
  intro a
  induction a with
  | nil => intro b h _; cases b <;> simp_all [strLt]
  | cons x xs ih =>
    intro b h1 h2
    cases b with
    | nil => simp [strLt] at h2
    | cons y ys =>
      simp only [strLt] at h1 h2
      by_cases hxy : x < y
      · simp [hxy] at h1
      · by_cases hyx : y < x
        · simp [hxy, hyx] at h2
        · have heq : x = y := by omega
          simp [hxy, hyx] at h1 h2
          rw [heq, ih ys h1 h2]

/-- Claim C9: the undirected-edge key function is symmetric, so
contributions for `A → B` and `B → A` land under the same map key. -/
theorem undirectedKey_symm (a b : GridCell) (_h : a ≠ b) :
    undirectedKey a b = undirectedKey b a := by
  unfold undirectedKey
  cases h1 : strLt (cellKey a) (cellKey b) <;>
    cases h2 : strLt (cellKey b) (cellKey a)
  · simp only [h1, h2, Bool.false_eq_true, if_false]
    rw [strLt_total_eq (cellKey a) (cellKey b) h1 h2]
  · simp [h1, h2]
  · simp [h1, h2]
  · have := strLt_asymm (cellKey a) (cellKey b) h1
    rw [this] at h2
    cases h2

/-- Witness for C9 at the concrete cells `(0,0)` and `(1,0)`. -/
theorem undirectedKey_symm_witness :
    ((0, 0) : GridCell) ≠ ((1, 0) : GridCell) ∧
      undirectedKey ((0, 0) : GridCell) ((1, 0) : GridCell) =
        undirectedKey ((1, 0) : GridCell) ((0, 0) : GridCell) :=
  ⟨by decide, undirectedKey_symm _ _ (by decide)⟩

/-! ### Degenerate resampler input (claim C5) -/

/-- Shared concrete arc-length function for witnesses: every segment is 10
meters long (e.g. equally spaced collinear vertices). -/
def dlen10 : Coord → Coord → ℚ := fun _ _ => 10

/-- Zero arc-length function (degenerate geometry). -/
def dlen0 : Coord → Coord → ℚ := fun _ _ => 0

/-- Claim C5 (amended): the pipeline resampler
`resampleLineWithProgress` yields an empty sequence on degenerate input
(fewer than 2 vertices, or total arc length 0). -/
theorem resampleLineWithProgress_degenerate_empty
    (dlen : Coord → Coord → ℚ) (stepM : ℚ) (coords : List Coord)
    (h : coords.length < 2 ∨ sumLen dlen (pairsOf coords) = 0) :
    resampleLineWithProgress dlen stepM coords = [] := by
  match coords with
  | [] => rfl
  | [c] => rfl
  | c0 :: c1 :: rest =>
    rcases h with h | h
    · simp only [List.length_cons] at h
      omega
    · simp only [resampleLineWithProgress]
      rw [if_pos h]

/-- Witness for C5 on a two-vertex, zero-length polyline. -/
theorem resampleLineWithProgress_degenerate_empty_witness :
    (([((0 : ℚ), (0 : ℚ)), ((0 : ℚ), (0 : ℚ))] : List Coord).length < 2 ∨
        sumLen dlen0 (pairsOf [((0 : ℚ), (0 : ℚ)), ((0 : ℚ), (0 : ℚ))]) = 0) ∧
      resampleLineWithProgress dlen0 500 [((0 : ℚ), (0 : ℚ)), ((0 : ℚ), (0 : ℚ))] = [] :=
  ⟨Or.inr (by norm_num [sumLen, pairsOf, dlen0]),
   resampleLineWithProgress_degenerate_empty dlen0 500 _
     (Or.inr (by norm_num [sumLen, pairsOf, dlen0]))⟩

/-- Counterexample to C5 as stated: the legacy `resampleLine` (also cited
by the claim) returns its one-vertex input unchanged, not an empty
sequence. -/
theorem resampleLine_degenerate_not_empty :
    ([((0 : ℚ), (0 : ℚ))] : List Coord).length < 2 ∧
      resampleLine dlen0 500 [((0 : ℚ), (0 : ℚ))] = [((0 : ℚ), (0 : ℚ))] ∧
      resampleLine dlen0 500 [((0 : ℚ), (0 : ℚ))] ≠ [] := by
  refine ⟨by norm_num, rfl, ?_⟩
  intro h
  rw [show resampleLine dlen0 500 [((0 : ℚ), (0 : ℚ))] =
    [((0 : ℚ), (0 : ℚ))] from rfl] at h
  cases h

/-! ### Travel-time extraction scenario (claim C3) -/

/-- Claim C3, Scenario A: a Route Store holding the acquisition client's
stored form of a 600-second, 9000-meter route for resort name X (code 88)
has `duration_sec = 600` and `distance_km = 9`, and the Travel-Time
Extractor emits exactly the entry `X ↦ {hours: 0.17, km: 9.0}`. -/
theorem travelTimes_scenario_A :
    (mkStoreProps [104] [88] [88] 600 9000).duration_sec = some 600 ∧
      (mkStoreProps [104] [88] [88] 600 9000).distance_km = some 9 ∧
      buildTravelTimes
        [⟨some [], some (mkStoreProps [104] [88] [88] 600 9000)⟩] =
        [([88], (17 / 100, 9))] := by
  have hprops : mkStoreProps [104] [88] [88] 600 9000 =
      { home_id := some [104], resort_id := some [88], name := some [88]
        duration_sec := some 600, duration_min := some 10
        distance_km := some 9 } := by
    unfold mkStoreProps roundJS
    norm_num
  refine ⟨rfl, by rw [hprops], ?_⟩
  rw [hprops]
  norm_num [buildTravelTimes, emptyProps, roundTo, roundJS, objSet]

/-! ### Corridor threshold filter (claim C4) -/

/-- Claim C4: every corridor feature surviving aggregation with threshold
`minCount` has `count ≥ minCount`. -/
theorem buildCorridors_count_ge_minCount
    (cellOf : Coord → GridCell) (cellCenter : GridCell → Coord)
    (dlen : Coord → Coord → ℚ) (stepM gridM minCount : ℚ)
    (features : List RouteFeature) (f : CorridorFeature)
    (hf : f ∈ buildCorridors cellOf cellCenter dlen stepM gridM minCount features) :
    minCount ≤ (f.count : ℚ) := by
  unfold buildCorridors at hf
  rw [List.mem_mergeSort, List.mem_filterMap] at hf
  obtain ⟨e, _, he⟩ := hf
  unfold finalizeSeg at he
  by_cases hlt : ((e.2.count : ℚ) < minCount)
  · rw [if_pos hlt] at he
    cases he
  · rw [if_neg hlt] at he
    have hc : f.count = e.2.count := by
      cases he
      rfl
    rw [hc]
    exact le_of_not_lt hlt

/-- Cell map used in concrete aggregation witnesses: quantizes a
coordinate by whether its first component exceeds one half. -/
def cellW : Coord → GridCell := fun c => (if c.1 ≤ 1 / 2 then 5 else 7, 3)

/-- Centroid map used in concrete aggregation witnesses. -/
def centerW : GridCell → Coord := fun c => ((c.1 : ℚ), (c.2 : ℚ))

/-- Witness for C4: a single two-vertex route crossing one cell boundary,
aggregated with `minCount = 1`, yields one edge with `count = 1 ≥ 1`. -/
theorem buildCorridors_count_ge_minCount_witness :
    (buildCorridors cellW centerW dlen10 10 800 1
        [⟨some [((0 : ℚ), (0 : ℚ)), ((1 : ℚ), (0 : ℚ))], none⟩]).length = 1 ∧
      ∀ f ∈ buildCorridors cellW centerW dlen10 10 800 1
          [⟨some [((0 : ℚ), (0 : ℚ)), ((1 : ℚ), (0 : ℚ))], none⟩],
        (1 : ℚ) ≤ (f.count : ℚ) := by
  have hf1 : loopFuel 10 10 0 = 1 := by
    have h : (⌈(10 : ℚ) / 10⌉ : ℤ) = 1 := by norm_num
    norm_num [loopFuel, h]
  have hsamp : resampleLineWithProgress dlen10 10
      [((0 : ℚ), (0 : ℚ)), ((1 : ℚ), (0 : ℚ))] =
      [⟨((0 : ℚ), (0 : ℚ)), 0⟩, ⟨((1 : ℚ), (0 : ℚ)), 1⟩] := by
    norm_num [resampleLineWithProgress, pairsOf, sumLen, dlen10, segsLoop, hf1,
      stepLoop, lerpCoord]
  have hbuild : buildCorridors cellW centerW dlen10 10 800 1
      [⟨some [((0 : ℚ), (0 : ℚ)), ((1 : ℚ), (0 : ℚ))], none⟩] =
      [{ coordA := ((5 : ℚ), (3 : ℚ)), coordB := ((7 : ℚ), (3 : ℚ)),
         count := 1, grid_m := 800, duration_min := none,
         duration_avg_min := none }] := by
    unfold buildCorridors buildSegments
    rw [List.foldl_cons, List.foldl_nil]
    simp only [foldFeature, hsamp]
    norm_num [pairsOf, contribPair, cellW, getDurationMin, mapUpdate, updSeg,
      segInit, undirectedKey, cellKey, intStr, natDigits, natDigitsAux, strLt,
      finalizeSeg, splitBar, splitBarAux, splitComma, splitCommaAux,
      parseCell, parseIntCode, parseNatCode, centerW,
      Prod.mk.injEq, Prod.ext_iff, List.filterMap_cons,
      List.mergeSort_singleton]
  rw [hbuild]
  constructor
  · rfl
  · intro f hf
    exact buildCorridors_count_ge_minCount cellW centerW dlen10 10 800 1 _ f
      (by rw [hbuild]; exact hf)

/-! ### Output ordering (claim C7) -/

/-- Claim C7: corridor output is sorted by `duration_min` in descending
order (`null` sorting first, as the comparator maps it to `Infinity`):
each feature's sort key is at least the next one's. -/
theorem buildCorridors_sorted_desc
    (cellOf : Coord → GridCell) (cellCenter : GridCell → Coord)
    (dlen : Coord → Coord → ℚ) (stepM gridM minCount : ℚ)
    (features : List RouteFeature) :
    List.Chain' (fun f g => durKey g.duration_min ≤ durKey f.duration_min)
      (buildCorridors cellOf cellCenter dlen stepM gridM minCount features) := by
  have htrans : ∀ a b c : CorridorFeature, corridorLe a b → corridorLe b c →
      corridorLe a c := by
    intro a b c h1 h2
    simp only [corridorLe, decide_eq_true_eq] at h1 h2 ⊢
    exact le_trans h2 h1
  have htot : ∀ a b : CorridorFeature, (corridorLe a b || corridorLe b a) = true := by
    intro a b
    rw [Bool.or_eq_true]
    rcases le_total (durKey a.duration_min) (durKey b.duration_min) with h | h
    · right
      simp only [corridorLe, decide_eq_true_eq]
      exact h
    · left
      simp only [corridorLe, decide_eq_true_eq]
      exact h
  unfold buildCorridors
  refine List.Pairwise.chain' (List.Pairwise.imp ?_ (List.sorted_mergeSort htrans htot _))
  intro a b h
  simp only [corridorLe, decide_eq_true_eq] at h
  exact h

/-! ### Null-duration handling in aggregation (claim C8) -/

/-- Undirected keys of the cell-crossing consecutive pairs of a resampled
route, in order: the multiset of edges the route contributes to. -/
def contribKeys (cellOf : Coord → GridCell)
    (ps : List (ResampledPoint × ResampledPoint)) : List (List ℕ) :=
  ps.filterMap (fun p =>
    if cellOf p.1.coord = cellOf p.2.coord then none
    else some (undirectedKey (cellOf p.1.coord) (cellOf p.2.coord)))

/-- Lookup after a map update: the updated key holds `updSeg` of the old
(or fresh) record, all other keys are untouched. -/
theorem mapFind_mapUpdate (m : SegMap) (k : List ℕ) (d : Option ℚ)
    (key : List ℕ) :
    mapFind (mapUpdate m k d) key =
      if key = k then some (updSeg d ((mapFind m k).getD segInit))
      else mapFind m key := by
  induction m with
  | nil =>
    by_cases h : key = k
    · subst h
      simp [mapUpdate, mapFind]
    · have h2 : ¬ (k = key) := fun hk => h hk.symm
      simp [mapUpdate, mapFind, h, h2]
  | cons hd tl ih =>
    obtain ⟨k0, s0⟩ := hd
    by_cases h0 : k0 = k
    · subst h0
      by_cases hk : key = k0
      · subst hk
        simp [mapUpdate, mapFind]
      · have h2 : ¬ (k0 = key) := fun h => hk h.symm
        simp [mapUpdate, mapFind, hk, h2]
    · by_cases h1 : k0 = key
      · have h2 : ¬ (key = k) := fun h => h0 (h1.trans h)
        simp [mapUpdate, mapFind, h0, h1, h2]
      · simp [mapUpdate, mapFind, h0, h1, ih]

/-- Folding pairs of a duration-less route: duration samples and running
minima are untouched, counts grow by each key's multiplicity among the
route's crossing pairs. -/
theorem foldl_contribPair_none (cellOf : Coord → GridCell) :
    ∀ (ps : List (ResampledPoint × ResampledPoint)) (m : SegMap)
      (key : List ℕ),
      ((mapFind (ps.foldl (contribPair cellOf none) m) key).getD segInit).durations =
        ((mapFind m key).getD segInit).durations ∧
      ((mapFind (ps.foldl (contribPair cellOf none) m) key).getD segInit).minDurationMin =
        ((mapFind m key).getD segInit).minDurationMin ∧
      ((mapFind (ps.foldl (contribPair cellOf none) m) key).getD segInit).count =
        ((mapFind m key).getD segInit).count +
          List.count key (contribKeys cellOf ps) := by
  intro ps
  induction ps with
  | nil =>
    intro m key
    simp [contribKeys]
  | cons p ps ih =>
    intro m key
    rw [List.foldl_cons]
    by_cases hc : cellOf p.1.coord = cellOf p.2.coord
    · have hstep : contribPair cellOf none m p = m := by
        simp [contribPair, hc]
      have hkeys : contribKeys cellOf (p :: ps) = contribKeys cellOf ps := by
        simp [contribKeys, hc]
      rw [hstep, hkeys]
      exact ih m key
    · have hstep : contribPair cellOf none m p =
          mapUpdate m (undirectedKey (cellOf p.1.coord) (cellOf p.2.coord)) none := by
        simp [contribPair, hc]
      have hkeys : contribKeys cellOf (p :: ps) =
          undirectedKey (cellOf p.1.coord) (cellOf p.2.coord) ::
            contribKeys cellOf ps := by
        simp [contribKeys, hc]
      rw [hstep, hkeys]
      obtain ⟨ih1, ih2, ih3⟩ := ih
        (mapUpdate m (undirectedKey (cellOf p.1.coord) (cellOf p.2.coord)) none) key
      rw [ih1, ih2, ih3, mapFind_mapUpdate]
      by_cases hk : key = undirectedKey (cellOf p.1.coord) (cellOf p.2.coord)
      · rw [if_pos hk, List.count_cons]
        simp [updSeg, hk]
        omega
      · rw [if_neg hk, List.count_cons]
        have : ¬ (undirectedKey (cellOf p.1.coord) (cellOf p.2.coord) = key) :=
          fun h => hk h.symm
        simp [this]

/-- Well-formedness of an edge accumulator: the duration-sample list is
empty exactly when the running minimum is still `Infinity`. -/
def segWellFormed (s : SegRec) : Prop :=
  s.durations = [] ↔ s.minDurationMin = none

/-- The fresh accumulator is well-formed. -/
theorem segInit_wf : segWellFormed segInit := by
  simp [segWellFormed, segInit]

/-- One contribution preserves accumulator well-formedness. -/
theorem updSeg_wf (d : Option ℚ) (s : SegRec) (h : segWellFormed s) :
    segWellFormed (updSeg d s) := by
  cases d with
  | none => simpa [segWellFormed, updSeg] using h
  | some v => simp [segWellFormed, updSeg]

/-- Map updates preserve well-formedness of every entry. -/
theorem mapUpdate_wf (m : SegMap) (k : List ℕ) (d : Option ℚ)
    (h : ∀ e ∈ m, segWellFormed e.2) :
    ∀ e ∈ mapUpdate m k d, segWellFormed e.2 := by
  induction m with
  | nil =>
    intro e he
    simp only [mapUpdate, List.mem_singleton] at he
    rw [he]
    exact updSeg_wf d segInit segInit_wf
  | cons hd tl ih =>
    obtain ⟨k0, s0⟩ := hd
    intro e he
    simp only [mapUpdate] at he
    by_cases h0 : k0 = k
    · rw [if_pos h0] at he
      rcases List.mem_cons.mp he with he | he
      · rw [he]
        exact updSeg_wf d s0 (h (k0, s0) (List.mem_cons_self _ _))
      · exact h e (List.mem_cons_of_mem _ he)
    · rw [if_neg h0] at he
      rcases List.mem_cons.mp he with he | he
      · rw [he]
        exact h (k0, s0) (List.mem_cons_self _ _)
      · exact ih (fun e' he' => h e' (List.mem_cons_of_mem _ he')) e he

/-- Folding any pair list preserves well-formedness of every entry. -/
theorem foldl_contribPair_wf (cellOf : Coord → GridCell) (dur : Option ℚ) :
    ∀ (ps : List (ResampledPoint × ResampledPoint)) (m : SegMap),
      (∀ e ∈ m, segWellFormed e.2) →
      ∀ e ∈ ps.foldl (contribPair cellOf dur) m, segWellFormed e.2 := by
  intro ps
  induction ps with
  | nil => intro m h; simpa using h
  | cons p ps ih =>
    intro m h
    rw [List.foldl_cons]
    apply ih
    unfold contribPair
    by_cases hc : cellOf p.1.coord = cellOf p.2.coord
    · simpa [hc] using h
    · simp only [hc, if_false]
      exact mapUpdate_wf m _ _ h

/-- Every entry of the built `segments` map is well-formed. -/
theorem buildSegments_wf (cellOf : Coord → GridCell)
    (dlen : Coord → Coord → ℚ) (stepM : ℚ) (features : List RouteFeature) :
    ∀ e ∈ buildSegments cellOf dlen stepM features, segWellFormed e.2 := by
  unfold buildSegments
  have hgen : ∀ (fs : List RouteFeature) (m : SegMap),
      (∀ e ∈ m, segWellFormed e.2) →
      ∀ e ∈ fs.foldl (foldFeature cellOf dlen stepM) m, segWellFormed e.2 := by
    intro fs
    induction fs with
    | nil => intro m h; simpa using h
    | cons f fs ih =>
      intro m h
      rw [List.foldl_cons]
      apply ih
      unfold foldFeature
      cases f.lineCoords with
      | none => simpa using h
      | some coords =>
        simp only []
        exact foldl_contribPair_wf cellOf _ _ m h
  exact hgen features [] (by simp)

/-- Claim C8: a route without a usable total duration increments the
count of each traversed edge (by its multiplicity) but leaves duration
samples and minima untouched; a finalized edge whose sample list is empty
(equivalently, whose minimum is still `Infinity` — the two agree on every
built entry) carries `duration_min = null` and `duration_avg_min = null`,
never `0`. -/
theorem corridor_null_duration_handling :
    (∀ (cellOf : Coord → GridCell) (dlen : Coord → Coord → ℚ) (stepM : ℚ)
        (m : SegMap) (f : RouteFeature) (coords : List Coord),
        f.lineCoords = some coords → getDurationMin f.props = none →
        ∀ key : List ℕ,
          ((mapFind (foldFeature cellOf dlen stepM m f) key).getD segInit).durations =
            ((mapFind m key).getD segInit).durations ∧
          ((mapFind (foldFeature cellOf dlen stepM m f) key).getD segInit).minDurationMin =
            ((mapFind m key).getD segInit).minDurationMin ∧
          ((mapFind (foldFeature cellOf dlen stepM m f) key).getD segInit).count =
            ((mapFind m key).getD segInit).count +
              List.count key (contribKeys cellOf
                (pairsOf (resampleLineWithProgress dlen stepM coords)))) ∧
    (∀ (cellCenter : GridCell → Coord) (gridM minCount : ℚ)
        (k : List ℕ) (seg : SegRec) (f : CorridorFeature),
        seg.durations = [] → seg.minDurationMin = none →
        finalizeSeg cellCenter gridM minCount (k, seg) = some f →
        f.duration_min = none ∧ f.duration_avg_min = none) ∧
    (∀ (cellOf : Coord → GridCell) (dlen : Coord → Coord → ℚ) (stepM : ℚ)
        (features : List RouteFeature),
        ∀ e ∈ buildSegments cellOf dlen stepM features,
          (e.2.durations = [] ↔ e.2.minDurationMin = none)) := by
  refine ⟨?_, ?_, ?_⟩
  · intro cellOf dlen stepM m f coords hline hdur key
    unfold foldFeature
    rw [hline, hdur]
    exact foldl_contribPair_none cellOf _ m key
  · intro cellCenter gridM minCount k seg f hdur hmin hfin
    unfold finalizeSeg at hfin
    by_cases hlt : ((seg.count : ℚ) < minCount)
    · rw [if_pos hlt] at hfin
      cases hfin
    · rw [if_neg hlt] at hfin
      simp only [hdur, hmin, List.length_nil, lt_irrefl, if_false,
        Option.map_none, Option.some.injEq] at hfin
      rw [← hfin]
      exact ⟨rfl, rfl⟩
  · intro cellOf dlen stepM features e he
    exact buildSegments_wf cellOf dlen stepM features e he

/-- Undirected key of the witness cells `(5,3)` and `(7,3)`. -/
def keyW : List ℕ := [53, 44, 51, 124, 55, 44, 51]

/-- Witness for C8: instantiates all three parts at a concrete
duration-less single-route aggregation. -/
theorem corridor_null_duration_handling_witness :
    ((mapFind (foldFeature cellW dlen10 10 []
          ⟨some [((0 : ℚ), (0 : ℚ)), ((1 : ℚ), (0 : ℚ))], none⟩) keyW).getD
        segInit).durations =
      ((mapFind ([] : SegMap) keyW).getD segInit).durations ∧
    ({ coordA := ((0 : ℚ), (0 : ℚ)), coordB := ((0 : ℚ), (0 : ℚ)), count := 0,
       grid_m := 800, duration_min := none,
       duration_avg_min := none } : CorridorFeature).duration_min = none ∧
    ((keyW, (⟨1, none, []⟩ : SegRec)).2.durations = [] ↔
      (keyW, (⟨1, none, []⟩ : SegRec)).2.minDurationMin = none) := by
  have hf1 : loopFuel 10 10 0 = 1 := by
    have h : (⌈(10 : ℚ) / 10⌉ : ℤ) = 1 := by norm_num
    norm_num [loopFuel, h]
  have hsamp : resampleLineWithProgress dlen10 10
      [((0 : ℚ), (0 : ℚ)), ((1 : ℚ), (0 : ℚ))] =
      [⟨((0 : ℚ), (0 : ℚ)), 0⟩, ⟨((1 : ℚ), (0 : ℚ)), 1⟩] := by
    norm_num [resampleLineWithProgress, pairsOf, sumLen, dlen10, segsLoop, hf1,
      stepLoop, lerpCoord]
  refine ⟨?_, ?_, ?_⟩
  · exact (corridor_null_duration_handling.1 cellW dlen10 10 []
      ⟨some [((0 : ℚ), (0 : ℚ)), ((1 : ℚ), (0 : ℚ))], none⟩
      [((0 : ℚ), (0 : ℚ)), ((1 : ℚ), (0 : ℚ))] rfl rfl keyW).1
  · have hfin : finalizeSeg centerW 800 0 ([], segInit) =
        some { coordA := ((0 : ℚ), (0 : ℚ)), coordB := ((0 : ℚ), (0 : ℚ)),
               count := 0, grid_m := 800, duration_min := none,
               duration_avg_min := none } := by
      norm_num [finalizeSeg, segInit, splitBar, splitBarAux, splitComma,
        splitCommaAux, parseCell, parseIntCode, parseNatCode, centerW]
    exact (corridor_null_duration_handling.2.1 centerW 800 0 [] segInit _
      rfl rfl hfin).1
  · have hsegs : buildSegments cellW dlen10 10
        [⟨some [((0 : ℚ), (0 : ℚ)), ((1 : ℚ), (0 : ℚ))], none⟩] =
        [(keyW, (⟨1, none, []⟩ : SegRec))] := by
      unfold buildSegments
      rw [List.foldl_cons, List.foldl_nil]
      simp only [foldFeature, hsamp]
      norm_num [pairsOf, contribPair, cellW, getDurationMin, mapUpdate, updSeg,
        segInit, undirectedKey, cellKey, intStr, natDigits, natDigitsAux, strLt,
        keyW, Prod.mk.injEq, Prod.ext_iff]
    exact corridor_null_duration_handling.2.2 cellW dlen10 10
      [⟨some [((0 : ℚ), (0 : ℚ)), ((1 : ℚ), (0 : ℚ))], none⟩]
      (keyW, (⟨1, none, []⟩ : SegRec)) (by rw [hsegs]; exact List.mem_singleton.mpr rfl)

/-! ### Acquisition failure handling (claim C2) -/

/-- Characterization of the acquisition fold: the features are exactly the
successful results in resort order, and the counters are the numbers of
successes and failures. -/
theorem runAcquisition_spec (homeId : List ℕ)
    (att : Resort → ℕ → Option OsrmJson) :
    ∀ (resorts : List Resort) (acc : List RouteFeature × ℕ × ℕ),
      resorts.foldl
        (fun acc r =>
          match processResort homeId (att r) r with
          | some f => (acc.1 ++ [f], acc.2.1 + 1, acc.2.2)
          | none => (acc.1, acc.2.1, acc.2.2 + 1)) acc =
      (acc.1 ++ resorts.filterMap (fun x => processResort homeId (att x) x),
       acc.2.1 + (resorts.filter
         (fun x => (processResort homeId (att x) x).isSome)).length,
       acc.2.2 + (resorts.filter
         (fun x => (processResort homeId (att x) x).isNone)).length) := by
  intro resorts
  induction resorts with
  | nil => intro acc; simp
  | cons r rs ih =>
    intro acc
    rw [List.foldl_cons]
    cases hp : processResort homeId (att r) r with
    | some f =>
      simp only [hp]
      rw [ih]
      simp [List.filterMap_cons, hp, List.filter_cons, Prod.ext_iff]
      omega
    | none =>
      simp only [hp]
      rw [ih]
      simp [List.filterMap_cons, hp, List.filter_cons, Prod.ext_iff]
      omega

/-- Claim C2: a Resort whose four fetch attempts all fail (with backoff
delays `350·k` slept between attempts) contributes nothing to the written
FeatureCollection, increments the failure counter, and does not prevent
the run from completing normally (exit code 0). -/
theorem acquisition_failed_resort_skipped
    (home : Home) (homeId : List ℕ) (att : Resort → ℕ → Option OsrmJson)
    (resorts : List Resort) (r : Resort)
    (hv : validLatLon home.lat home.lon)
    (hr : r ∈ resorts)
    (hfail : ∀ k, att r k = none) :
    fetchRoute (att r) = (none, 4, [350, 700, 1050, 1400]) ∧
    processResort homeId (att r) r = none ∧
    (runAcquisition homeId att resorts).1 =
      resorts.filterMap (fun x => processResort homeId (att x) x) ∧
    (runAcquisition homeId att resorts).2.2 =
      (resorts.filter (fun x => (processResort homeId (att x) x).isNone)).length ∧
    1 ≤ (runAcquisition homeId att resorts).2.2 ∧
    (mainAcquisition home homeId att resorts).isOk = true := by
  have hfetch : fetchRoute (att r) = (none, 4, [350, 700, 1050, 1400]) := by
    norm_num [fetchRoute, fetchLoop, hfail]
  have hproc : processResort homeId (att r) r = none := by
    unfold processResort
    rw [hfetch]
  have hrun := runAcquisition_spec homeId att resorts ([], 0, 0)
  refine ⟨hfetch, hproc, ?_, ?_, ?_, ?_⟩
  · unfold runAcquisition
    rw [hrun]
    simp
  · unfold runAcquisition
    rw [hrun]
    simp
  · unfold runAcquisition
    rw [hrun]
    have hmem : r ∈ resorts.filter
        (fun x => (processResort homeId (att x) x).isNone) :=
      List.mem_filter.mpr ⟨hr, by simp [hproc]⟩
    have := List.length_pos.mpr (List.ne_nil_of_mem hmem)
    simpa using this
  · unfold mainAcquisition
    rw [if_pos hv]
    rfl

/-- Resort used in the acquisition witness. -/
def resortW : Resort := ⟨none, none, [88], 47, 11⟩

/-- Witness for C2 at a concrete home, one resort, and an always-failing
routing engine. -/
theorem acquisition_failed_resort_skipped_witness :
    validLatLon (48137 / 1000 : ℚ) (11575 / 1000 : ℚ) ∧
    fetchRoute (fun _ => none) = (none, 4, [350, 700, 1050, 1400]) ∧
    1 ≤ (runAcquisition [104] (fun _ _ => none) [resortW]).2.2 ∧
    (mainAcquisition ⟨48137 / 1000, 11575 / 1000⟩ [104]
      (fun _ _ => none) [resortW]).isOk = true := by
  have hv : validLatLon (48137 / 1000 : ℚ) (11575 / 1000 : ℚ) := by
    norm_num [validLatLon]
  have h := acquisition_failed_resort_skipped ⟨48137 / 1000, 11575 / 1000⟩
    [104] (fun _ _ => none) [resortW] resortW hv
    (List.mem_singleton.mpr rfl) (fun _ => rfl)
  exact ⟨hv, h.1, h.2.2.2.2.1, h.2.2.2.2.2⟩

/-! ### Structural lemmas for the resampling loops -/

/-- The inner loop only appends to its accumulator. -/
theorem stepLoop_prefix (stepM segLen totalLen : ℚ) (a b : Coord) :
    ∀ (n : ℕ) (dist cumDist : ℚ) (out : List ResampledPoint),
      ∃ δ, (stepLoop stepM segLen totalLen a b n dist cumDist out).1 = out ++ δ := by
  intro n
  induction n with
  | zero => intro dist cumDist out; exact ⟨[], by simp [stepLoop]⟩
  | succ n ih =>
    intro dist cumDist out
    by_cases hg : dist + stepM ≤ segLen
    · obtain ⟨δ, hδ⟩ := ih (dist + stepM) (cumDist + stepM)
        (out ++ [⟨lerpCoord a b ((dist + stepM) / segLen),
                 (cumDist + stepM) / totalLen⟩])
      refine ⟨⟨lerpCoord a b ((dist + stepM) / segLen),
        (cumDist + stepM) / totalLen⟩ :: δ, ?_⟩
      simp only [stepLoop, if_pos hg]
      rw [hδ, List.append_assoc, List.singleton_append]
    · exact ⟨[], by simp [stepLoop, if_neg hg]⟩

/-- The outer loop only appends to its accumulator. -/
theorem segsLoop_prefix (dlen : Coord → Coord → ℚ) (stepM totalLen : ℚ) :
    ∀ (ps : List (Coord × Coord)) (cumDist carry : ℚ)
      (out : List ResampledPoint),
      ∃ δ, (segsLoop dlen stepM totalLen ps cumDist carry out).1 = out ++ δ := by
  intro ps
  induction ps with
  | nil => intro cumDist carry out; exact ⟨[], by simp [segsLoop]⟩
  | cons p rest ih =>
    intro cumDist carry out
    obtain ⟨a, b⟩ := p
    by_cases h0 : dlen a b = 0
    · obtain ⟨δ, hδ⟩ := ih cumDist carry out
      exact ⟨δ, by simp only [segsLoop, if_pos h0]; exact hδ⟩
    · obtain ⟨δ1, hδ1⟩ := stepLoop_prefix stepM (dlen a b) totalLen a b
        (loopFuel stepM (dlen a b) carry) carry cumDist out
      obtain ⟨δ2, hδ2⟩ := ih
        (stepLoop stepM (dlen a b) totalLen a b
          (loopFuel stepM (dlen a b) carry) carry cumDist out).2.1
        (stepLoop stepM (dlen a b) totalLen a b
          (loopFuel stepM (dlen a b) carry) carry cumDist out).2.2
        (stepLoop stepM (dlen a b) totalLen a b
          (loopFuel stepM (dlen a b) carry) carry cumDist out).1
      refine ⟨δ1 ++ δ2, ?_⟩
      simp only [segsLoop, if_neg h0]
      rw [hδ2, hδ1, List.append_assoc]

/-- Claim C6: for a non-degenerate polyline the last resampled coordinate
equals the route's final vertex exactly. -/
theorem resample_last_coord_eq_final_vertex (dlen : Coord → Coord → ℚ)
    (stepM : ℚ) (coords : List Coord) (h2 : 2 ≤ coords.length)
    (hT : 0 < sumLen dlen (pairsOf coords)) (_hs : 0 < stepM) :
    ((resampleLineWithProgress dlen stepM coords).map
      ResampledPoint.coord).getLast? = coords.getLast? := by
  match coords, h2 with
  | c0 :: c1 :: rest, _ =>
    have hTne : ¬ (sumLen dlen (pairsOf (c0 :: c1 :: rest)) = 0) :=
      fun h => absurd h (ne_of_gt hT)
    simp only [resampleLineWithProgress]
    rw [if_neg hTne]
    obtain ⟨δ, hδ⟩ := segsLoop_prefix dlen stepM
      (sumLen dlen (pairsOf (c0 :: c1 :: rest)))
      (pairsOf (c0 :: c1 :: rest)) 0 0 [⟨c0, 0⟩]
    cases hlast : (segsLoop dlen stepM
        (sumLen dlen (pairsOf (c0 :: c1 :: rest)))
        (pairsOf (c0 :: c1 :: rest)) 0 0 [⟨c0, 0⟩]).1.getLast? with
    | none =>
      rw [List.getLast?_eq_none_iff] at hlast
      rw [hlast] at hδ
      exact absurd hδ.symm (List.cons_ne_nil _ _)
    | some lo =>
      simp only [hlast]
      by_cases heq : lo.coord = (c0 :: c1 :: rest).getLast (List.cons_ne_nil _ _)
      · rw [if_pos heq, List.getLast?_map, hlast]
        rw [List.getLast?_eq_getLast _ (List.cons_ne_nil _ _)]
        simp [heq]
      · rw [if_neg heq, List.map_append]
        rw [List.getLast?_eq_getLast _ (List.cons_ne_nil _ _)]
        simp

/-- Witness for C6 on a concrete three-vertex polyline. -/
theorem resample_last_coord_eq_final_vertex_witness :
    2 ≤ ([((0 : ℚ), (0 : ℚ)), ((1 : ℚ), (0 : ℚ)), ((2 : ℚ), (0 : ℚ))] : List Coord).length ∧
    0 < sumLen dlen10 (pairsOf
      [((0 : ℚ), (0 : ℚ)), ((1 : ℚ), (0 : ℚ)), ((2 : ℚ), (0 : ℚ))]) ∧
    (0 : ℚ) < 3 ∧
    ((resampleLineWithProgress dlen10 3
        [((0 : ℚ), (0 : ℚ)), ((1 : ℚ), (0 : ℚ)), ((2 : ℚ), (0 : ℚ))]).map
      ResampledPoint.coord).getLast? =
      ([((0 : ℚ), (0 : ℚ)), ((1 : ℚ), (0 : ℚ)), ((2 : ℚ), (0 : ℚ))] : List Coord).getLast? :=
  ⟨by norm_num, by norm_num [sumLen, pairsOf, dlen10], by norm_num,
   resample_last_coord_eq_final_vertex dlen10 3 _ (by norm_num)
     (by norm_num [sumLen, pairsOf, dlen10]) (by norm_num)⟩

/-! ### Agreement of the two resamplers (claim C10) -/

/-- The two inner loops emit the same coordinates and the same carry. -/
theorem stepLoop_coords_eq (stepM segLen totalLen : ℚ) (a b : Coord) :
    ∀ (n : ℕ) (dist cumDist : ℚ) (out : List ResampledPoint)
      (outC : List Coord), out.map ResampledPoint.coord = outC →
      (stepLoop stepM segLen totalLen a b n dist cumDist out).1.map
          ResampledPoint.coord =
        (stepLoopC stepM segLen a b n dist outC).1 ∧
      (stepLoop stepM segLen totalLen a b n dist cumDist out).2.2 =
        (stepLoopC stepM segLen a b n dist outC).2 := by
  intro n
  induction n with
  | zero =>
    intro dist cumDist out outC h
    simp [stepLoop, stepLoopC, h]
  | succ n ih =>
    intro dist cumDist out outC h
    by_cases hg : dist + stepM ≤ segLen
    · simp only [stepLoop, stepLoopC, if_pos hg]
      exact ih (dist + stepM) (cumDist + stepM) _ _ (by simp [h])
    · simp [stepLoop, stepLoopC, if_neg hg, h]

/-- The two outer loops emit the same coordinates and the same carry. -/
theorem segsLoop_coords_eq (dlen : Coord → Coord → ℚ) (stepM totalLen : ℚ) :
    ∀ (ps : List (Coord × Coord)) (cumDist carry : ℚ)
      (out : List ResampledPoint) (outC : List Coord),
      out.map ResampledPoint.coord = outC →
      (segsLoop dlen stepM totalLen ps cumDist carry out).1.map
          ResampledPoint.coord =
        (segsLoopC dlen stepM ps carry outC).1 ∧
      (segsLoop dlen stepM totalLen ps cumDist carry out).2.2 =
        (segsLoopC dlen stepM ps carry outC).2 := by
  intro ps
  induction ps with
  | nil => intro cumDist carry out outC h; simp [segsLoop, segsLoopC, h]
  | cons p rest ih =>
    intro cumDist carry out outC h
    obtain ⟨a, b⟩ := p
    by_cases h0 : dlen a b = 0
    · simp only [segsLoop, segsLoopC, if_pos h0]
      exact ih cumDist carry out outC h
    · simp only [segsLoop, segsLoopC, if_neg h0]
      obtain ⟨h1, h2⟩ := stepLoop_coords_eq stepM (dlen a b) totalLen a b
        (loopFuel stepM (dlen a b) carry) carry cumDist out outC h
      rw [← h2]
      exact ih _ _ _ _ h1

/-- Claim C10: on non-degenerate input the coordinates produced by the
pipeline resampler coincide, element by element, with the legacy
resampler's output. -/
theorem resample_geometry_refines_legacy (dlen : Coord → Coord → ℚ)
    (stepM : ℚ) (coords : List Coord) (h2 : 2 ≤ coords.length)
    (hT : 0 < sumLen dlen (pairsOf coords)) (_hs : 0 < stepM) :
    (resampleLineWithProgress dlen stepM coords).map ResampledPoint.coord =
      resampleLine dlen stepM coords := by
  match coords, h2 with
  | c0 :: c1 :: rest, _ =>
    have hTne : ¬ (sumLen dlen (pairsOf (c0 :: c1 :: rest)) = 0) :=
      fun h => absurd h (ne_of_gt hT)
    simp only [resampleLineWithProgress, resampleLine]
    rw [if_neg hTne]
    obtain ⟨h1, _h2c⟩ := segsLoop_coords_eq dlen stepM
      (sumLen dlen (pairsOf (c0 :: c1 :: rest)))
      (pairsOf (c0 :: c1 :: rest)) 0 0 [⟨c0, 0⟩] [c0] (by simp)
    cases hlast : (segsLoop dlen stepM
        (sumLen dlen (pairsOf (c0 :: c1 :: rest)))
        (pairsOf (c0 :: c1 :: rest)) 0 0 [⟨c0, 0⟩]).1.getLast? with
    | none =>
      have hlastC : (segsLoopC dlen stepM (pairsOf (c0 :: c1 :: rest)) 0
          [c0]).1.getLast? = none := by
        rw [← h1, List.getLast?_map, hlast]
        rfl
      simp only [hlast, hlastC, List.map_append, h1]
      rfl
    | some lo =>
      have hlastC : (segsLoopC dlen stepM (pairsOf (c0 :: c1 :: rest)) 0
          [c0]).1.getLast? = some lo.coord := by
        rw [← h1, List.getLast?_map, hlast]
        rfl
      simp only [hlast, hlastC]
      by_cases heq : lo.coord = (c0 :: c1 :: rest).getLast (List.cons_ne_nil _ _)
      · rw [if_pos heq, if_pos heq]
        exact h1
      · rw [if_neg heq, if_neg heq, List.map_append, h1]
        rfl

/-- Witness for C10 on a concrete three-vertex polyline. -/
theorem resample_geometry_refines_legacy_witness :
    2 ≤ ([((0 : ℚ), (0 : ℚ)), ((1 : ℚ), (0 : ℚ)), ((2 : ℚ), (0 : ℚ))] : List Coord).length ∧
    0 < sumLen dlen10 (pairsOf
      [((0 : ℚ), (0 : ℚ)), ((1 : ℚ), (0 : ℚ)), ((2 : ℚ), (0 : ℚ))]) ∧
    (0 : ℚ) < 3 ∧
    (resampleLineWithProgress dlen10 3
        [((0 : ℚ), (0 : ℚ)), ((1 : ℚ), (0 : ℚ)), ((2 : ℚ), (0 : ℚ))]).map
      ResampledPoint.coord =
      resampleLine dlen10 3
        [((0 : ℚ), (0 : ℚ)), ((1 : ℚ), (0 : ℚ)), ((2 : ℚ), (0 : ℚ))] :=
  ⟨by norm_num, by norm_num [sumLen, pairsOf, dlen10], by norm_num,
   resample_geometry_refines_legacy dlen10 3 _ (by norm_num)
     (by norm_num [sumLen, pairsOf, dlen10]) (by norm_num)⟩

/-! ### Progress invariants (claim C1) -/

/-- Inner-loop invariant after at least one push: the last recorded
progress times `totalLen` equals the running `cumDist`; on exit it equals
`cumDist - carry` with a nonnegative carry. -/
theorem stepLoop_invB (stepM segLen totalLen : ℚ) (a b : Coord)
    (hs : 0 < stepM) (hT : 0 < totalLen) :
    ∀ (n : ℕ) (dist cumDist : ℚ) (out : List ResampledPoint) (lp : ℚ),
      out ≠ [] →
      (out.map ResampledPoint.progress).getLast? = some lp →
      List.Chain' (· ≤ ·) (out.map ResampledPoint.progress) →
      lp * totalLen = cumDist →
      dist ≤ segLen →
      ∃ lp2,
        (stepLoop stepM segLen totalLen a b n dist cumDist out).1 ≠ [] ∧
        List.Chain' (· ≤ ·)
          ((stepLoop stepM segLen totalLen a b n dist cumDist out).1.map
            ResampledPoint.progress) ∧
        ((stepLoop stepM segLen totalLen a b n dist cumDist out).1.map
            ResampledPoint.progress).getLast? = some lp2 ∧
        lp2 * totalLen =
          (stepLoop stepM segLen totalLen a b n dist cumDist out).2.1 -
            (stepLoop stepM segLen totalLen a b n dist cumDist out).2.2 ∧
        0 ≤ (stepLoop stepM segLen totalLen a b n dist cumDist out).2.2 ∧
        (stepLoop stepM segLen totalLen a b n dist cumDist out).2.1 =
          cumDist + (segLen - dist) := by
  intro n
  induction n with
  | zero =>
    intro dist cumDist out lp hne hlast hch heq hd
    simp only [stepLoop]
    exact ⟨lp, hne, hch, hlast, by linarith, by linarith, trivial⟩
  | succ n ih =>
    intro dist cumDist out lp hne hlast hch heq hd
    by_cases hg : dist + stepM ≤ segLen
    · simp only [stepLoop, if_pos hg]
      have hle : lp ≤ (cumDist + stepM) / totalLen := by
        rw [le_div_iff₀ hT]
        linarith
      obtain ⟨lp2, h1, h2, h3, h4, h5, h6⟩ := ih (dist + stepM) (cumDist + stepM)
        (out ++ [⟨lerpCoord a b ((dist + stepM) / segLen),
                 (cumDist + stepM) / totalLen⟩])
        ((cumDist + stepM) / totalLen)
        (by simp)
        (by simp)
        (by
          rw [List.map_append]
          rw [List.chain'_append]
          refine ⟨hch, by simp, ?_⟩
          intro x hx y hy
          rw [hlast] at hx
          simp only [Option.mem_def, Option.some.injEq] at hx
          simp only [List.map_cons, List.map_nil, List.head?_cons,
            Option.mem_def, Option.some.injEq] at hy
          rw [← hx, ← hy]
          exact hle)
        (div_mul_cancel₀ _ (ne_of_gt hT))
        hg
      exact ⟨lp2, h1, h2, h3, h4, h5, by rw [h6]; ring⟩
    · simp only [stepLoop, if_neg hg]
      exact ⟨lp, hne, hch, hlast, by linarith, by linarith, trivial⟩

/-- Inner-loop invariant at segment entry: the last recorded progress
times `totalLen` is bounded by both `cumDist` and `cumDist - dist`
(`dist` starts at the incoming carry); the exit state keeps both bounds,
and the outgoing carry is either unchanged (`segLen - dist`, no push) or
nonnegative (after a push). -/
theorem stepLoop_invA (stepM segLen totalLen : ℚ) (a b : Coord)
    (hs : 0 < stepM) (hT : 0 < totalLen) (hsl : 0 ≤ segLen) :
    ∀ (n : ℕ) (dist cumDist : ℚ) (out : List ResampledPoint) (lp : ℚ),
      out ≠ [] →
      (out.map ResampledPoint.progress).getLast? = some lp →
      List.Chain' (· ≤ ·) (out.map ResampledPoint.progress) →
      lp * totalLen ≤ cumDist →
      lp * totalLen ≤ cumDist - dist →
      ∃ lp2,
        (stepLoop stepM segLen totalLen a b n dist cumDist out).1 ≠ [] ∧
        List.Chain' (· ≤ ·)
          ((stepLoop stepM segLen totalLen a b n dist cumDist out).1.map
            ResampledPoint.progress) ∧
        ((stepLoop stepM segLen totalLen a b n dist cumDist out).1.map
            ResampledPoint.progress).getLast? = some lp2 ∧
        lp2 * totalLen ≤
          (stepLoop stepM segLen totalLen a b n dist cumDist out).2.1 ∧
        lp2 * totalLen ≤
          (stepLoop stepM segLen totalLen a b n dist cumDist out).2.1 -
            (stepLoop stepM segLen totalLen a b n dist cumDist out).2.2 ∧
        (stepLoop stepM segLen totalLen a b n dist cumDist out).2.1 =
          cumDist + (segLen - dist) ∧
        ((stepLoop stepM segLen totalLen a b n dist cumDist out).2.2 =
            segLen - dist ∨
          0 ≤ (stepLoop stepM segLen totalLen a b n dist cumDist out).2.2) := by
  intro n dist cumDist out lp hne hlast hch hc2 hc1
  cases n with
  | zero =>
    simp only [stepLoop]
    exact ⟨lp, hne, hch, hlast, by linarith, by linarith, trivial,
      Or.inl trivial⟩
  | succ n =>
    by_cases hg : dist + stepM ≤ segLen
    · simp only [stepLoop, if_pos hg]
      have hle : lp ≤ (cumDist + stepM) / totalLen := by
        rw [le_div_iff₀ hT]
        linarith
      obtain ⟨lp2, h1, h2, h3, h4, h5, h6⟩ :=
        stepLoop_invB stepM segLen totalLen a b hs hT n (dist + stepM)
          (cumDist + stepM)
          (out ++ [⟨lerpCoord a b ((dist + stepM) / segLen),
                   (cumDist + stepM) / totalLen⟩])
          ((cumDist + stepM) / totalLen)
          (by simp)
          (by simp)
          (by
            rw [List.map_append]
            rw [List.chain'_append]
            refine ⟨hch, by simp, ?_⟩
            intro x hx y hy
            rw [hlast] at hx
            simp only [Option.mem_def, Option.some.injEq] at hx
            simp only [List.map_cons, List.map_nil, List.head?_cons,
              Option.mem_def, Option.some.injEq] at hy
            rw [← hx, ← hy]
            exact hle)
          (div_mul_cancel₀ _ (ne_of_gt hT))
          hg
      refine ⟨lp2, h1, h2, h3, by linarith, le_of_eq h4, by rw [h6]; ring,
        Or.inr h5⟩
    · simp only [stepLoop, if_neg hg]
      exact ⟨lp, hne, hch, hlast, by linarith, by linarith, trivial,
        Or.inl trivial⟩

/-- Outer-loop invariant: starting from a nonempty, monotone prefix whose
last progress satisfies the carry bounds, the final sequence is nonempty
and monotone and its last progress is at most `1` (times `totalLen`). -/
theorem segsLoop_inv (dlen : Coord → Coord → ℚ) (stepM totalLen : ℚ)
    (hs : 0 < stepM) (hT : 0 < totalLen) (hnn : ∀ a b, 0 ≤ dlen a b) :
    ∀ (ps : List (Coord × Coord)) (cumDist carry : ℚ)
      (out : List ResampledPoint) (lp : ℚ),
      out ≠ [] →
      (out.map ResampledPoint.progress).getLast? = some lp →
      List.Chain' (· ≤ ·) (out.map ResampledPoint.progress) →
      lp * totalLen ≤ cumDist →
      lp * totalLen ≤ cumDist - carry →
      cumDist ≤ (totalLen - sumLen dlen ps) + min carry 0 →
      ∃ lp2,
        (segsLoop dlen stepM totalLen ps cumDist carry out).1 ≠ [] ∧
        List.Chain' (· ≤ ·)
          ((segsLoop dlen stepM totalLen ps cumDist carry out).1.map
            ResampledPoint.progress) ∧
        ((segsLoop dlen stepM totalLen ps cumDist carry out).1.map
            ResampledPoint.progress).getLast? = some lp2 ∧
        lp2 * totalLen ≤ totalLen := by
  intro ps
  induction ps with
  | nil =>
    intro cumDist carry out lp hne hlast hch hc2 hc1 hc3
    simp only [segsLoop, sumLen] at *
    refine ⟨lp, hne, hch, hlast, ?_⟩
    have hm : min carry 0 ≤ 0 := min_le_right _ _
    linarith
  | cons p rest ih =>
    intro cumDist carry out lp hne hlast hch hc2 hc1 hc3
    obtain ⟨a, b⟩ := p
    simp only [sumLen] at hc3
    by_cases h0 : dlen a b = 0
    · simp only [segsLoop, if_pos h0]
      refine ih cumDist carry out lp hne hlast hch hc2 hc1 ?_
      rw [h0] at hc3
      linarith
    · simp only [segsLoop, if_neg h0]
      have hsl : 0 ≤ dlen a b := hnn a b
      obtain ⟨lp1, H1, H2, H3, H4, H5, H6, H7⟩ :=
        stepLoop_invA stepM (dlen a b) totalLen a b hs hT hsl
          (loopFuel stepM (dlen a b) carry) carry cumDist out lp
          hne hlast hch hc2 hc1
      refine ih _ _ _ lp1 H1 H3 H2 H4 H5 ?_
      by_cases hcc : 0 ≤ (stepLoop stepM (dlen a b) totalLen a b
          (loopFuel stepM (dlen a b) carry) carry cumDist out).2.2
      · rw [min_eq_right hcc, H6]
        have hm : min carry 0 ≤ carry := min_le_left _ _
        linarith
      · rcases H7 with h7 | h7
        · rw [min_eq_left (by linarith), H6, h7]
          have hm : min carry 0 ≤ 0 := min_le_right _ _
          linarith
        · exact absurd h7 hcc

/-- Claim C1 (amended): over a non-degenerate polyline the progress
sequence starts at 0, is monotonically non-decreasing, and its last value
is at most 1.  (Equality with 1 can fail — see the counterexample — when
the resampling loop emits the final vertex exactly.) -/
theorem resample_progress_monotone_bounds (dlen : Coord → Coord → ℚ)
    (stepM : ℚ) (coords : List Coord) (hs : 0 < stepM)
    (hnn : ∀ a b, 0 ≤ dlen a b) (h2 : 2 ≤ coords.length)
    (hT : 0 < sumLen dlen (pairsOf coords)) :
    ((resampleLineWithProgress dlen stepM coords).map
      ResampledPoint.progress).head? = some 0 ∧
    List.Chain' (· ≤ ·)
      ((resampleLineWithProgress dlen stepM coords).map
        ResampledPoint.progress) ∧
    ∃ q, ((resampleLineWithProgress dlen stepM coords).map
        ResampledPoint.progress).getLast? = some q ∧ q ≤ 1 := by
  match coords, h2 with
  | c0 :: c1 :: rest, _ =>
    have hTne : ¬ (sumLen dlen (pairsOf (c0 :: c1 :: rest)) = 0) :=
      fun h => absurd h (ne_of_gt hT)
    simp only [resampleLineWithProgress]
    rw [if_neg hTne]
    obtain ⟨lp2, hR1, hR2, hR3, hR4⟩ := segsLoop_inv dlen stepM
      (sumLen dlen (pairsOf (c0 :: c1 :: rest))) hs hT hnn
      (pairsOf (c0 :: c1 :: rest)) 0 0 [⟨c0, 0⟩] 0
      (List.cons_ne_nil _ _) (by simp) (by simp) (by simp) (by simp)
      (by simp)
    obtain ⟨δ, hδ⟩ := segsLoop_prefix dlen stepM
      (sumLen dlen (pairsOf (c0 :: c1 :: rest)))
      (pairsOf (c0 :: c1 :: rest)) 0 0 [⟨c0, 0⟩]
    have hle1 : lp2 ≤ 1 := by nlinarith
    cases hlast2 : (segsLoop dlen stepM
        (sumLen dlen (pairsOf (c0 :: c1 :: rest)))
        (pairsOf (c0 :: c1 :: rest)) 0 0 [⟨c0, 0⟩]).1.getLast? with
    | none =>
      rw [List.getLast?_eq_none_iff] at hlast2
      exact absurd hlast2 hR1
    | some lo =>
      simp only [hlast2]
      by_cases heq : lo.coord = (c0 :: c1 :: rest).getLast (List.cons_ne_nil _ _)
      · rw [if_pos heq]
        refine ⟨?_, hR2, lp2, hR3, hle1⟩
        rw [hδ, List.singleton_append, List.map_cons, List.head?_cons]
      · rw [if_neg heq]
        refine ⟨?_, ?_, 1, ?_, le_refl 1⟩
        · rw [hδ, List.singleton_append, List.cons_append, List.map_cons,
            List.head?_cons]
        · rw [List.map_append, List.chain'_append]
          refine ⟨hR2, by simp, ?_⟩
          intro x hx y hy
          rw [hR3] at hx
          simp only [Option.mem_def, Option.some.injEq] at hx
          simp only [List.map_cons, List.map_nil, List.head?_cons,
            Option.mem_def, Option.some.injEq] at hy
          rw [← hx, ← hy]
          exact hle1
        · rw [List.map_append]
          simp

/-- Witness for the amended C1 on a concrete three-vertex polyline. -/
theorem resample_progress_monotone_bounds_witness :
    (0 : ℚ) < 3 ∧ (∀ a b, 0 ≤ dlen10 a b) ∧
    2 ≤ ([((0 : ℚ), (0 : ℚ)), ((1 : ℚ), (0 : ℚ)), ((2 : ℚ), (0 : ℚ))] : List Coord).length ∧
    0 < sumLen dlen10 (pairsOf
      [((0 : ℚ), (0 : ℚ)), ((1 : ℚ), (0 : ℚ)), ((2 : ℚ), (0 : ℚ))]) ∧
    (((resampleLineWithProgress dlen10 3
        [((0 : ℚ), (0 : ℚ)), ((1 : ℚ), (0 : ℚ)), ((2 : ℚ), (0 : ℚ))]).map
      ResampledPoint.progress).head? = some 0 ∧
    List.Chain' (· ≤ ·)
      ((resampleLineWithProgress dlen10 3
        [((0 : ℚ), (0 : ℚ)), ((1 : ℚ), (0 : ℚ)), ((2 : ℚ), (0 : ℚ))]).map
        ResampledPoint.progress) ∧
    ∃ q, ((resampleLineWithProgress dlen10 3
        [((0 : ℚ), (0 : ℚ)), ((1 : ℚ), (0 : ℚ)), ((2 : ℚ), (0 : ℚ))]).map
        ResampledPoint.progress).getLast? = some q ∧ q ≤ 1) :=
  ⟨by norm_num, fun a b => by norm_num [dlen10], by norm_num,
   by norm_num [sumLen, pairsOf, dlen10],
   resample_progress_monotone_bounds dlen10 3 _ (by norm_num)
     (fun a b => by norm_num [dlen10]) (by norm_num)
     (by norm_num [sumLen, pairsOf, dlen10])⟩

/-- Counterexample to C1 as stated: on two equal 10-meter segments with
step 3 the loop emits the final vertex exactly, so the final progress is
19/20, not 1 (far outside floating-point tolerance).  The cumulative
distance counter lags the true arc length by the inter-segment carry. -/
theorem resample_progress_last_ne_one_cex :
    (0 : ℚ) < 3 ∧ (∀ a b, 0 ≤ dlen10 a b) ∧
    2 ≤ ([((0 : ℚ), (0 : ℚ)), ((1 : ℚ), (0 : ℚ)), ((2 : ℚ), (0 : ℚ))] : List Coord).length ∧
    0 < sumLen dlen10 (pairsOf
      [((0 : ℚ), (0 : ℚ)), ((1 : ℚ), (0 : ℚ)), ((2 : ℚ), (0 : ℚ))]) ∧
    ((resampleLineWithProgress dlen10 3
        [((0 : ℚ), (0 : ℚ)), ((1 : ℚ), (0 : ℚ)), ((2 : ℚ), (0 : ℚ))]).map
      ResampledPoint.progress).getLast? = some (19 / 20) ∧
    (19 : ℚ) / 20 ≠ 1 := by
  have hf1 : loopFuel 3 10 0 = 4 := by
    have h : (⌈(10 : ℚ) / 3⌉ : ℤ) = 4 := by
      rw [Int.ceil_eq_iff]
      norm_num
    norm_num [loopFuel, h]
    decide
  have hf2 : loopFuel 3 10 1 = 3 := by
    have h : (⌈(3 : ℚ)⌉ : ℤ) = 3 := by norm_num
    norm_num [loopFuel, h]
    decide
  have hlist : (resampleLineWithProgress dlen10 3
      [((0 : ℚ), (0 : ℚ)), ((1 : ℚ), (0 : ℚ)), ((2 : ℚ), (0 : ℚ))]).map
      ResampledPoint.progress =
      [0, 3 / 20, 6 / 20, 9 / 20, 13 / 20, 16 / 20, 19 / 20] := by
    norm_num [resampleLineWithProgress, pairsOf, sumLen, dlen10, segsLoop,
      hf1, hf2, stepLoop, lerpCoord]
  refine ⟨by norm_num, fun a b => by norm_num [dlen10], by norm_num,
    by norm_num [sumLen, pairsOf, dlen10], ?_, by norm_num⟩
  rw [hlist]
  rfl
